import Mathlib

/-!
Verification of the EFI boot-entry manager in `ovirt/node/utils/system.py`
(`class EFI`, its inner `BootEntry` record and the three operations
`add_entry` / `list_entries` / `remove_entry`).

The embedding is shallow:

* `BootEntry` mirrors the three-field record.
* `BootEntry.cmpResult` is `BootEntry.__cmp__` exactly as written in the
  source: it returns the Boolean `self.to_tuple() == other.to_tuple()`.
* `BootEntry.pyEq` is what the expression `other_entry == entry` in
  `remove_entry` evaluates to under Python 2 semantics: `BootEntry`
  defines no `__eq__`, so `==` falls back to the three-way protocol,
  calling `__cmp__` and declaring the operands equal iff the returned
  value, read as an integer (`True` is `1`, `False` is `0`), equals `0`.
* `efibootmgr_cmd` is the argument-vector construction loop of
  `EFI._efibootmgr`.
* `splitLines` is the Python `str.split` at newlines (splits at every newline and
  keeps empty pieces), `parseLine` is one application of the regular
  expression `^Boot([0-9a-zA-Z]{4})[\* ] ([^\t]+)\t(.*)$` to a single
  newline-free line, and `parse_entries` is the parsing loop of
  `list_entries`.
* The three operations are modelled as functions of an abstract external
  tool; each returns the list of argument vectors passed to the tool
  (the invocation trace, in order) together with the result, where a
  raised exception becomes `Except.error`.
-/

namespace OvirtEFI

/-- One firmware boot menu entry, mirroring `EFI.BootEntry`. -/
structure BootEntry where
  bootnum : String
  label : String
  value : String
  deriving DecidableEq, Repr

/-- Method `BootEntry.to_tuple`: the derived tuple `(bootnum, label, value)`. -/
def BootEntry.to_tuple (e : BootEntry) : String × String × String :=
  (e.bootnum, e.label, e.value)

/-- Method `BootEntry.__cmp__` exactly as written in the source: it returns the
Boolean value of `self.to_tuple() == other.to_tuple()`. -/
def BootEntry.cmpResult (a b : BootEntry) : Bool :=
  a.to_tuple == b.to_tuple

/-- The value of the Python 2 expression `a == b` for two `BootEntry`
values: no `__eq__` is defined, so CPython 2 falls back to the three-way
comparison protocol and the operands compare equal iff `a.__cmp__(b)`,
read as an integer (`True` reads as `1`, `False` as `0`), equals `0`. -/
def BootEntry.pyEq (a b : BootEntry) : Bool :=
  (if BootEntry.cmpResult a b then (1 : Int) else 0) == 0

/-- Structural equality of two entries as the spec states it: all three
fields match. -/
def BootEntry.structEq (a b : BootEntry) : Bool :=
  a.to_tuple == b.to_tuple

/-- Errors surfaced by the operations: `toolError` models the exception
raised by the external-process invoker (carrying the captured error
output), `notFound` models the `RuntimeError` raised by `remove_entry`
for an entry it did not find in the fresh listing. -/
inductive PyErr where
  | toolError (captured : String)
  | notFound (entry : BootEntry)
  deriving DecidableEq, Repr

/-- Modelled from the spec: the External Tool Invoker
(`process.check_output`, which lives outside this file) executes an
argument vector with no shell interpretation and either returns the
captured standard output or fails, carrying the captured error stream. -/
abbrev Tool := List String → Except String String

/-- The loop body of `EFI._efibootmgr`: for each `(k, v)` pair append
`"--" ++ k` to the accumulated vector and then, when the value is
present, the value itself. -/
def appendArgs (cmd : List String) : List (String × Option String) → List String
  | [] => cmd
  | kv :: rest =>
    match kv.2 with
    | some v => appendArgs (cmd ++ ["--" ++ kv.1] ++ [v]) rest
    | none => appendArgs (cmd ++ ["--" ++ kv.1]) rest

/-- The argument-vector construction of `EFI._efibootmgr`: start from
`["efibootmgr"]` and run the appending loop. -/
def efibootmgr_cmd (cmdargs : List (String × Option String)) : List String :=
  appendArgs ["efibootmgr"] cmdargs

/-- The Python `str.split` at newlines, on the character list: split at every
newline, keeping empty pieces (so the result is always nonempty). -/
def splitLines : List Char → List (List Char)
  | [] => [[]]
  | c :: rest =>
    if c = '\n' then [] :: splitLines rest
    else
      match splitLines rest with
      | [] => [[c]]
      | l :: ls => (c :: l) :: ls

/-- Split a character list at its first tab: `some (before, after)` when a
tab occurs, `none` otherwise.  This is how `([^\t]+)\t(.*)$` carves up the
text after the fixed prefix: the greedy tab-free group ends at the first
tab and the rest of the line is the final group. -/
def splitAtFirstTab : List Char → Option (List Char × List Char)
  | [] => none
  | c :: rest =>
    if c = '\t' then some ([], rest)
    else
      match splitAtFirstTab rest with
      | some (lab, val) => some (c :: lab, val)
      | none => none

/-- One application of `^Boot([0-9a-zA-Z]{4})[\* ] ([^\t]+)\t(.*)$` to a
single newline-free line: the line must start with `Boot`, then four
alphanumeric characters, then `*` or a space, then a space; the label is
the nonempty tab-free run up to the first tab, the value is everything
after that tab. -/
def parseLine (cs : List Char) : Option BootEntry :=
  match cs with
  | b1 :: b2 :: b3 :: b4 :: c1 :: c2 :: c3 :: c4 :: m :: sp :: rest =>
    if b1 = 'B' ∧ b2 = 'o' ∧ b3 = 'o' ∧ b4 = 't'
        ∧ c1.isAlphanum ∧ c2.isAlphanum ∧ c3.isAlphanum ∧ c4.isAlphanum
        ∧ (m = '*' ∨ m = ' ') ∧ sp = ' ' then
      match splitAtFirstTab rest with
      | some (lab, val) =>
        if lab = [] then none
        else some ⟨⟨[c1, c2, c3, c4]⟩, ⟨lab⟩, ⟨val⟩⟩
      | none => none
    else none
  | _ => none

/-- The parsing loop of `list_entries`: split the raw output at newlines
and keep, in order, the entries of the lines the pattern matches. -/
def parse_entries (text : String) : List BootEntry :=
  (splitLines text.data).filterMap parseLine

/-- The creation vector `add_entry` builds from its three arguments. -/
def add_cmd (label loader_filename disk : String) : List String :=
  efibootmgr_cmd
    [("verbose", none), ("create", none), ("label", some label),
     ("loader", some loader_filename), ("disk", some disk)]

/-- Operation `EFI.add_entry`: run
`efibootmgr --verbose --create --label L --loader F --disk D` and return
`True`; a tool failure propagates. -/
def add_entry (tool : Tool) (label loader_filename disk : String) :
    List (List String) × Except PyErr Bool :=
  match tool (add_cmd label loader_filename disk) with
  | Except.ok _ => ([add_cmd label loader_filename disk], Except.ok true)
  | Except.error err =>
    ([add_cmd label loader_filename disk], Except.error (PyErr.toolError err))

/-- The listing vector, `efibootmgr --verbose`. -/
def list_cmd : List String := efibootmgr_cmd [("verbose", none)]

/-- Operation `EFI.list_entries`: run `efibootmgr --verbose` and parse the output;
a tool failure propagates. -/
def list_entries (tool : Tool) :
    List (List String) × Except PyErr (List BootEntry) :=
  match tool list_cmd with
  | Except.ok out => ([list_cmd], Except.ok (parse_entries out))
  | Except.error err => ([list_cmd], Except.error (PyErr.toolError err))

/-- The deletion vector `remove_entry` builds for an entry. -/
def remove_cmd (entry : BootEntry) : List String :=
  efibootmgr_cmd
    [("verbose", none), ("bootnum", some entry.bootnum),
     ("delete-bootnum", none)]

/-- Operation `EFI.remove_entry`: list the current entries, scan them with the
Python `==` comparison (`BootEntry.pyEq`); if no listed entry compares
equal, raise the not-found error, otherwise run the delete command and
return `True`.  Tool failures of either invocation propagate. -/
def remove_entry (tool : Tool) (entry : BootEntry) :
    List (List String) × Except PyErr Bool :=
  match list_entries tool with
  | (trace, Except.error err) => (trace, Except.error err)
  | (trace, Except.ok listed) =>
    if listed.any (fun other => BootEntry.pyEq other entry) then
      match tool (remove_cmd entry) with
      | Except.ok _ => (trace ++ [remove_cmd entry], Except.ok true)
      | Except.error err =>
        (trace ++ [remove_cmd entry], Except.error (PyErr.toolError err))
    else
      (trace, Except.error (PyErr.notFound entry))

/-- The Command Builder contract in the words of the spec: the binary
name followed, for each pair, by `--` prepended to the option name and,
only when a value is present, that value as the next element, in the
supplied order. -/
def specCommandVector (cmdargs : List (String × Option String)) : List String :=
  "efibootmgr" :: cmdargs.flatMap (fun kv => ("--" ++ kv.1) :: kv.2.toList)

/-- The line shape in the words of the spec: `Boot`, four alphanumeric
characters, a `*`-or-space marker, a space, a nonempty tab-free label, a
tab, and the value. -/
def specShape (cs : List Char) : Prop :=
  ∃ (num lab val : List Char) (m : Char),
    cs = 'B' :: 'o' :: 'o' :: 't' :: (num ++ m :: ' ' :: (lab ++ '\t' :: val))
    ∧ num.length = 4
    ∧ (∀ c ∈ num, c.isAlphanum = true)
    ∧ (m = '*' ∨ m = ' ')
    ∧ lab ≠ []
    ∧ '\t' ∉ lab

/-! ## General lemmas -/

/-- The appending loop, run from any accumulator, appends exactly the
spec-described flattening of the pairs. -/
lemma appendArgs_eq (cmdargs : List (String × Option String)) :
    ∀ acc : List String,
      appendArgs acc cmdargs
        = acc ++ cmdargs.flatMap (fun kv => ("--" ++ kv.1) :: kv.2.toList) := by
  induction cmdargs with
  | nil => intro acc; simp [appendArgs]
  | cons kv rest ih =>
    intro acc
    obtain ⟨k, v⟩ := kv
    cases v with
    | none => simp [appendArgs, ih, List.append_assoc]
    | some v => simp [appendArgs, ih, List.append_assoc]

/-- Splitting a list that is known to be a tab-free prefix, a tab and a
tail recovers exactly that prefix and tail. -/
lemma splitAtFirstTab_append (lab val : List Char) (htab : '\t' ∉ lab) :
    splitAtFirstTab (lab ++ '\t' :: val) = some (lab, val) := by
  induction lab with
  | nil => simp [splitAtFirstTab]
  | cons c labt ih =>
    have hc : ¬ c = '\t' := by
      rintro rfl; exact htab (List.mem_cons_self _ _)
    have ht : '\t' ∉ labt := fun hm => htab (List.mem_cons_of_mem _ hm)
    simp [splitAtFirstTab, hc, ih ht]

/-- Conversely, a successful split certifies the decomposition and the
tab-freeness of the prefix. -/
lemma splitAtFirstTab_some (cs : List Char) :
    ∀ lab val, splitAtFirstTab cs = some (lab, val) →
      cs = lab ++ '\t' :: val ∧ '\t' ∉ lab := by
  induction cs with
  | nil => intro lab val h; simp [splitAtFirstTab] at h
  | cons c rest ih =>
    intro lab val h
    unfold splitAtFirstTab at h
    by_cases hc : c = '\t'
    · rw [if_pos hc] at h
      obtain ⟨rfl, rfl⟩ := Prod.mk.injEq .. ▸ Option.some.inj h
      subst hc
      exact ⟨rfl, by simp⟩
    · rw [if_neg hc] at h
      cases hs : splitAtFirstTab rest with
      | none => rw [hs] at h; exact absurd h (by simp)
      | some p =>
        obtain ⟨lab0, val0⟩ := p
        rw [hs] at h
        obtain ⟨rfl, rfl⟩ := Prod.mk.injEq .. ▸ Option.some.inj h
        obtain ⟨hcs, htab⟩ := ih lab0 val0 hs
        refine ⟨by rw [hcs]; rfl, ?_⟩
        intro hm
        rcases List.mem_cons.mp hm with hm | hm
        · exact hc hm.symm
        · exact htab hm

/-- Splitting newline-free text at newlines yields the single original
line. -/
lemma splitLines_no_newline (cs : List Char) (h : '\n' ∉ cs) :
    splitLines cs = [cs] := by
  induction cs with
  | nil => rfl
  | cons c rest ih =>
    have hc : ¬ c = '\n' := by
      rintro rfl; exact h (List.mem_cons_self _ _)
    have hr : '\n' ∉ rest := fun hm => h (List.mem_cons_of_mem _ hm)
    simp [splitLines, hc, ih hr]

/-- Splitting at newlines never yields the empty list of pieces. -/
lemma splitLines_ne_nil (cs : List Char) : splitLines cs ≠ [] := by
  cases cs with
  | nil => simp [splitLines]
  | cons c rest =>
    unfold splitLines
    by_cases hc : c = '\n'
    · rw [if_pos hc]; simp
    · rw [if_neg hc]
      cases splitLines rest <;> simp

/-- Every piece produced by splitting at newlines is newline-free. -/
lemma splitLines_mem_no_newline (cs : List Char) :
    ∀ l ∈ splitLines cs, '\n' ∉ l := by
  induction cs with
  | nil =>
    intro l hl
    simp [splitLines] at hl
    simp [hl]
  | cons c rest ih =>
    intro l hl
    unfold splitLines at hl
    by_cases hc : c = '\n'
    · rw [if_pos hc] at hl
      rcases List.mem_cons.mp hl with rfl | hl
      · simp
      · exact ih l hl
    · rw [if_neg hc] at hl
      cases hs : splitLines rest with
      | nil => exact absurd hs (splitLines_ne_nil rest)
      | cons l0 ls =>
        rw [hs] at hl
        change l ∈ (c :: l0) :: ls at hl
        rcases List.mem_cons.mp hl with rfl | hl
        · intro hm
          rcases List.mem_cons.mp hm with hm | hm
          · exact hc hm.symm
          · exact ih l0 (hs ▸ List.mem_cons_self _ _) hm
        · exact ih l (hs ▸ List.mem_cons_of_mem _ hl)

/-- Computing the parser on a line of the matched shape. -/
lemma parseLine_build (c1 c2 c3 c4 m : Char) (lab val : List Char)
    (h1 : c1.isAlphanum = true) (h2 : c2.isAlphanum = true)
    (h3 : c3.isAlphanum = true) (h4 : c4.isAlphanum = true)
    (hm : m = '*' ∨ m = ' ') (hlab : lab ≠ []) (htab : '\t' ∉ lab) :
    parseLine ('B' :: 'o' :: 'o' :: 't' :: c1 :: c2 :: c3 :: c4 :: m :: ' '
        :: (lab ++ '\t' :: val))
      = some ⟨⟨[c1, c2, c3, c4]⟩, ⟨lab⟩, ⟨val⟩⟩ := by
  simp only [parseLine]
  rw [splitAtFirstTab_append lab val htab]
  rw [if_pos ⟨trivial, trivial, trivial, trivial, h1, h2, h3, h4, hm, trivial⟩]
  change (if lab = [] then none
      else some (BootEntry.mk (String.mk [c1, c2, c3, c4])
        (String.mk lab) (String.mk val)))
    = some (BootEntry.mk (String.mk [c1, c2, c3, c4])
        (String.mk lab) (String.mk val))
  rw [if_neg hlab]

/-- A successful parse certifies the full decomposition of the line and
the fields of the entry. -/
lemma parseLine_some_elim (cs : List Char) (e : BootEntry)
    (h : parseLine cs = some e) :
    ∃ (c1 c2 c3 c4 m : Char) (lab val : List Char),
      cs = 'B' :: 'o' :: 'o' :: 't' :: c1 :: c2 :: c3 :: c4 :: m :: ' '
        :: (lab ++ '\t' :: val)
      ∧ c1.isAlphanum = true ∧ c2.isAlphanum = true
      ∧ c3.isAlphanum = true ∧ c4.isAlphanum = true
      ∧ (m = '*' ∨ m = ' ') ∧ lab ≠ [] ∧ '\t' ∉ lab
      ∧ e = ⟨⟨[c1, c2, c3, c4]⟩, ⟨lab⟩, ⟨val⟩⟩ := by
  unfold parseLine at h
  split at h
  case h_2 => exact absurd h (by simp)
  case h_1 b1 b2 b3 b4 c1 c2 c3 c4 m sp rest =>
    split at h
    case isFalse => exact absurd h (by simp)
    case isTrue hcond =>
      obtain ⟨hb1, hb2, hb3, hb4, h1, h2, h3, h4, hm, hsp⟩ := hcond
      subst hb1; subst hb2; subst hb3; subst hb4; subst hsp
      cases hs : splitAtFirstTab rest with
      | none => rw [hs] at h; exact absurd h (by simp)
      | some p =>
        obtain ⟨lab, val⟩ := p
        rw [hs] at h
        change (if lab = [] then none
            else some (BootEntry.mk (String.mk [c1, c2, c3, c4])
              (String.mk lab) (String.mk val))) = some e at h
        by_cases hlab : lab = []
        · rw [if_pos hlab] at h; exact absurd h (by simp)
        · rw [if_neg hlab] at h
          obtain ⟨hrest, htab⟩ := splitAtFirstTab_some rest lab val hs
          exact ⟨c1, c2, c3, c4, m, lab, val, by rw [hrest],
            h1, h2, h3, h4, hm, hlab, htab, (Option.some.inj h).symm⟩

/-- A list of length four is a four-element enumeration. -/
lemma length_four_eq (l : List Char) (h : l.length = 4) :
    ∃ a b c d, l = [a, b, c, d] := by
  rcases l with _ | ⟨a, _ | ⟨b, _ | ⟨c, _ | ⟨d, _ | ⟨e, t⟩⟩⟩⟩⟩
  · simp at h
  · simp at h
  · simp at h
  · simp at h
  · exact ⟨a, b, c, d, rfl⟩
  · simp at h

/-- A non-empty string has a non-empty character list. -/
lemma string_ne_empty_data (s : String) (h : s ≠ "") : s.data ≠ [] := by
  intro hd
  apply h
  calc s = ⟨s.data⟩ := rfl
  _ = ⟨[]⟩ := by rw [hd]
  _ = "" := rfl

/-- Unfolding string concatenation to character lists. -/
lemma data_append (s t : String) : (s ++ t).data = s.data ++ t.data := rfl

/-! ## Claim theorems -/

/-- C1: the comparison `remove_entry` applies when scanning the fresh
listing is the Python `==` on `BootEntry`, which goes through the
three-way protocol of `__cmp__`; since `__cmp__` returns a Boolean
instead of a signed three-way integer, the comparison deems two entries
equal exactly when their field tuples DIFFER — the opposite of the
claimed structural equality.  In particular two entries with identical
fields compare unequal and two entries with different fields compare
equal. -/
theorem bootentry_equality_inverted :
    (∀ a b : BootEntry, BootEntry.pyEq a b = !(BootEntry.structEq a b))
    ∧ BootEntry.pyEq ⟨"0001", "Fedora", "grubx64.efi"⟩
        ⟨"0001", "Fedora", "grubx64.efi"⟩ = false
    ∧ BootEntry.pyEq ⟨"0001", "Fedora", "grubx64.efi"⟩
        ⟨"0002", "Windows", "bootmgfw.efi"⟩ = true := by
  refine ⟨fun a b => ?_, by decide, by decide⟩
  unfold BootEntry.pyEq BootEntry.structEq BootEntry.cmpResult
  cases h : (a.to_tuple == b.to_tuple) <;> simp [h]

/-- C2: with a fresh listing holding a single entry and an argument entry
structurally equal to none of the listed entries, `remove_entry` does NOT
fail with the not-found error: because the `==` comparison is inverted
(see `BootEntry.pyEq`), the existence check passes and the manager issues
the mutating `--delete-bootnum` invocation, contradicting the claim that
no mutating invocation happens in this case. -/
theorem remove_entry_missing_entry_mutates :
    ((parse_entries "Boot0001* Fedora\t/EFI/fedora/grubx64.efi").any
        (fun o => BootEntry.structEq o ⟨"0002", "Windows", "bootmgfw.efi"⟩))
      = false
    ∧ remove_entry (fun _ => Except.ok "Boot0001* Fedora\t/EFI/fedora/grubx64.efi")
        ⟨"0002", "Windows", "bootmgfw.efi"⟩
      = ([["efibootmgr", "--verbose"],
          ["efibootmgr", "--verbose", "--bootnum", "0002", "--delete-bootnum"]],
         Except.ok true) :=
  ⟨rfl, rfl⟩

/-- C3: with a fresh listing holding exactly one entry, structurally equal
to the argument, `remove_entry` does NOT issue the delete invocation:
because the `==` comparison is inverted (see `BootEntry.pyEq`), the
existence check fails and the call raises the not-found error after the
single listing invocation, contradicting the claim. -/
theorem remove_entry_sole_match_not_found :
    ((parse_entries "Boot0001* Fedora\t/EFI/fedora/grubx64.efi").any
        (fun o => BootEntry.structEq o ⟨"0001", "Fedora", "/EFI/fedora/grubx64.efi"⟩))
      = true
    ∧ remove_entry (fun _ => Except.ok "Boot0001* Fedora\t/EFI/fedora/grubx64.efi")
        ⟨"0001", "Fedora", "/EFI/fedora/grubx64.efi"⟩
      = ([["efibootmgr", "--verbose"]],
         Except.error (PyErr.notFound ⟨"0001", "Fedora", "/EFI/fedora/grubx64.efi"⟩)) :=
  ⟨rfl, rfl⟩

/-- C4: for non-empty label, loader filename and disk, `add_entry`
executes exactly the vector
`[efibootmgr, --verbose, --create, --label, L, --loader, F, --disk, D]`
(the whole trace is that single invocation) and returns `True` whenever
the invocation succeeds. -/
theorem add_entry_builds_exact_vector (tool : Tool)
    (label loader_filename disk : String)
    (h1 : label ≠ "") (h2 : loader_filename ≠ "") (h3 : disk ≠ "") :
    (add_entry tool label loader_filename disk).1
      = [["efibootmgr", "--verbose", "--create", "--label", label,
          "--loader", loader_filename, "--disk", disk]]
    ∧ (∀ out,
        tool ["efibootmgr", "--verbose", "--create", "--label", label,
              "--loader", loader_filename, "--disk", disk] = Except.ok out →
        (add_entry tool label loader_filename disk).2 = Except.ok true) := by
  have hcmd : add_cmd label loader_filename disk
      = ["efibootmgr", "--verbose", "--create", "--label", label,
         "--loader", loader_filename, "--disk", disk] := rfl
  constructor
  · unfold add_entry
    cases htool : tool (add_cmd label loader_filename disk) <;> simp [hcmd]
  · intro out hout
    unfold add_entry
    rw [hcmd, hout]

/-- Witness for C4 at a concrete tool and concrete non-empty arguments. -/
theorem add_entry_builds_exact_vector_witness :
    (add_entry (fun _ => Except.ok "") "Fedora" "grubx64.efi" "/dev/sda").1
      = [["efibootmgr", "--verbose", "--create", "--label", "Fedora",
          "--loader", "grubx64.efi", "--disk", "/dev/sda"]]
    ∧ (add_entry (fun _ => Except.ok "") "Fedora" "grubx64.efi" "/dev/sda").2
      = Except.ok true :=
  ⟨(add_entry_builds_exact_vector (fun _ => Except.ok "") "Fedora" "grubx64.efi"
      "/dev/sda" (by decide) (by decide) (by decide)).1,
   (add_entry_builds_exact_vector (fun _ => Except.ok "") "Fedora" "grubx64.efi"
      "/dev/sda" (by decide) (by decide) (by decide)).2 "" rfl⟩

/-- C5: the command builder meets the spec contract: the produced vector
is the binary name followed, pair by pair in the supplied order, by the
`--`-prefixed option name and, exactly when present, the value. -/
theorem efibootmgr_cmd_meets_contract (cmdargs : List (String × Option String)) :
    efibootmgr_cmd cmdargs = specCommandVector cmdargs := by
  unfold efibootmgr_cmd specCommandVector
  rw [appendArgs_eq]
  simp

/-- C6: `list_entries` parses the raw text line by line in input order,
keeping exactly the lines of the spec shape
`Boot<4 alphanumerics><marker><space><tab-free label>TAB<value>` and
silently skipping every other line; text with no matching lines
(including empty text) yields the empty sequence, and a successful
listing invocation returns the parse of the captured output verbatim. -/
theorem list_entries_matches_shape (text : String) :
    parse_entries text = (splitLines text.data).filterMap parseLine
    ∧ (∀ cs : List Char, (parseLine cs).isSome = true ↔ specShape cs)
    ∧ parse_entries "" = []
    ∧ (∀ tool : Tool, ∀ out : String, tool list_cmd = Except.ok out →
        (list_entries tool).2 = Except.ok (parse_entries out)) := by
  refine ⟨rfl, fun cs => ⟨?_, ?_⟩, rfl, fun tool out hout => by
    unfold list_entries; rw [hout]⟩
  · intro h
    obtain ⟨e, he⟩ := Option.isSome_iff_exists.mp h
    obtain ⟨c1, c2, c3, c4, m, lab, val, hcs, h1, h2, h3, h4, hm, hlab, htab, -⟩ :=
      parseLine_some_elim cs e he
    refine ⟨[c1, c2, c3, c4], lab, val, m, by rw [hcs]; rfl, rfl, ?_, hm, hlab, htab⟩
    intro c hc
    simp only [List.mem_cons, List.not_mem_nil, or_false] at hc
    rcases hc with rfl | rfl | rfl | rfl <;> assumption
  · rintro ⟨num, lab, val, m, hcs, hlen, halnum, hm, hlab, htab⟩
    obtain ⟨c1, c2, c3, c4, rfl⟩ := length_four_eq num hlen
    subst hcs
    have hb := parseLine_build c1 c2 c3 c4 m lab val
      (halnum c1 (by simp)) (halnum c2 (by simp))
      (halnum c3 (by simp)) (halnum c4 (by simp)) hm hlab htab
    change (parseLine ('B' :: 'o' :: 'o' :: 't' :: c1 :: c2 :: c3 :: c4 :: m :: ' '
      :: (lab ++ '\t' :: val))).isSome = true
    rw [hb]
    rfl

/-- Witness for C6: a successful listing invocation returns the parsed
entries of its captured output. -/
theorem list_entries_matches_shape_witness :
    (list_entries (fun _ => Except.ok "Boot0001* Fedora\t/vmlinuz")).2
      = Except.ok (parse_entries "Boot0001* Fedora\t/vmlinuz") :=
  (list_entries_matches_shape "").2.2.2
    (fun _ => Except.ok "Boot0001* Fedora\t/vmlinuz") "Boot0001* Fedora\t/vmlinuz" rfl

/-- Parsing a single synthetic line of the matched shape, at the level of
character lists: the whole text is one newline-free line, so splitting
keeps it intact and the parser extracts exactly the three components. -/
lemma parse_entries_line_core (num lab val : List Char) (m : Char)
    (hlen : num.length = 4) (halnum : ∀ c ∈ num, c.isAlphanum = true)
    (hm : m = '*' ∨ m = ' ') (hlab : lab ≠ []) (htab : '\t' ∉ lab)
    (hlabnl : '\n' ∉ lab) (hvalnl : '\n' ∉ val) :
    parse_entries ⟨'B' :: 'o' :: 'o' :: 't' :: (num ++ m :: ' ' :: (lab ++ '\t' :: val))⟩
      = [⟨⟨num⟩, ⟨lab⟩, ⟨val⟩⟩] := by
  obtain ⟨c1, c2, c3, c4, rfl⟩ := length_four_eq num hlen
  simp only [List.cons_append, List.nil_append]
  have hmn : ¬ m = '\n' := by rcases hm with rfl | rfl <;> decide
  have hnl : '\n' ∉ ('B' :: 'o' :: 'o' :: 't'
      :: c1 :: c2 :: c3 :: c4 :: m :: ' ' :: (lab ++ '\t' :: val)) := by
    intro hmem
    rcases List.mem_cons.mp hmem with h | hmem
    · exact absurd h (by decide)
    rcases List.mem_cons.mp hmem with h | hmem
    · exact absurd h (by decide)
    rcases List.mem_cons.mp hmem with h | hmem
    · exact absurd h (by decide)
    rcases List.mem_cons.mp hmem with h | hmem
    · exact absurd h (by decide)
    rcases List.mem_cons.mp hmem with h | hmem
    · have := halnum c1 (by simp); rw [← h] at this; exact absurd this (by decide)
    rcases List.mem_cons.mp hmem with h | hmem
    · have := halnum c2 (by simp); rw [← h] at this; exact absurd this (by decide)
    rcases List.mem_cons.mp hmem with h | hmem
    · have := halnum c3 (by simp); rw [← h] at this; exact absurd this (by decide)
    rcases List.mem_cons.mp hmem with h | hmem
    · have := halnum c4 (by simp); rw [← h] at this; exact absurd this (by decide)
    rcases List.mem_cons.mp hmem with h | hmem
    · exact hmn h.symm
    rcases List.mem_cons.mp hmem with h | hmem
    · exact absurd h (by decide)
    rcases List.mem_append.mp hmem with h | hmem
    · exact hlabnl h
    rcases List.mem_cons.mp hmem with h | hmem
    · exact absurd h (by decide)
    · exact hvalnl hmem
  unfold parse_entries
  rw [show (String.mk ('B' :: 'o' :: 'o' :: 't'
      :: c1 :: c2 :: c3 :: c4 :: m :: ' ' :: (lab ++ '\t' :: val))).data
    = ('B' :: 'o' :: 'o' :: 't'
      :: c1 :: c2 :: c3 :: c4 :: m :: ' ' :: (lab ++ '\t' :: val)) from rfl]
  rw [splitLines_no_newline _ hnl]
  have hb := parseLine_build c1 c2 c3 c4 m lab val
    (halnum c1 (by simp)) (halnum c2 (by simp))
    (halnum c3 (by simp)) (halnum c4 (by simp)) hm hlab htab
  simp only [List.filterMap_cons, List.filterMap_nil]
  rw [hb]

/-- C7 counterexample: the round-trip claim quantified over ALL field
strings is false.  Each conjunct shows one concrete synthetic line
`"Boot" ++ bootnum ++ marker ++ " " ++ label ++ "\t" ++ value` that does
not parse back to `(bootnum, label, value)`: a bootnum of the wrong
length, a non-alphanumeric bootnum, an empty label, a label containing a
tab, and a value containing a newline. -/
theorem roundtrip_unrestricted_fails :
    parse_entries ("Boot" ++ "123" ++ "*" ++ " " ++ "Fedora" ++ "\t" ++ "/vmlinuz")
      ≠ [⟨"123", "Fedora", "/vmlinuz"⟩]
    ∧ parse_entries ("Boot" ++ "0-01" ++ "*" ++ " " ++ "Fedora" ++ "\t" ++ "/vmlinuz")
      ≠ [⟨"0-01", "Fedora", "/vmlinuz"⟩]
    ∧ parse_entries ("Boot" ++ "0001" ++ "*" ++ " " ++ "" ++ "\t" ++ "/vmlinuz")
      ≠ [⟨"0001", "", "/vmlinuz"⟩]
    ∧ parse_entries ("Boot" ++ "0001" ++ "*" ++ " " ++ "a\tb" ++ "\t" ++ "/vmlinuz")
      ≠ [⟨"0001", "a\tb", "/vmlinuz"⟩]
    ∧ parse_entries ("Boot" ++ "0001" ++ "*" ++ " " ++ "Fedora" ++ "\t" ++ "a\nb")
      ≠ [⟨"0001", "Fedora", "a\nb"⟩] :=
  ⟨by decide, by decide, by decide, by decide, by decide⟩

/-- C7 (amended): the round-trip holds for every bootnum of exactly four
alphanumeric characters, marker in `*`/space, non-empty label free of
tabs and newlines, and value free of newlines: the synthetic line
`"Boot" ++ bootnum ++ marker ++ " " ++ label ++ "\t" ++ value` parses
back to exactly `(bootnum, label, value)`, with the marker leaking into
no field. -/
theorem roundtrip_wellformed (bootnum label value marker : String)
    (hlen : bootnum.data.length = 4)
    (halnum : ∀ c ∈ bootnum.data, c.isAlphanum = true)
    (hmark : marker = "*" ∨ marker = " ")
    (hlab_ne : label ≠ "") (hlab_tab : '\t' ∉ label.data)
    (hlab_nl : '\n' ∉ label.data) (hval_nl : '\n' ∉ value.data) :
    parse_entries ("Boot" ++ bootnum ++ marker ++ " " ++ label ++ "\t" ++ value)
      = [⟨bootnum, label, value⟩] := by
  have hcore := parse_entries_line_core bootnum.data label.data value.data
  rcases hmark with rfl | rfl
  · have hdata : ("Boot" ++ bootnum ++ "*" ++ " " ++ label ++ "\t" ++ value).data
        = 'B' :: 'o' :: 'o' :: 't'
          :: (bootnum.data ++ '*' :: ' ' :: (label.data ++ '\t' :: value.data)) := by
      simp only [data_append, List.append_assoc]
      rfl
    have hline : ("Boot" ++ bootnum ++ "*" ++ " " ++ label ++ "\t" ++ value)
        = String.mk ('B' :: 'o' :: 'o' :: 't'
          :: (bootnum.data ++ '*' :: ' ' :: (label.data ++ '\t' :: value.data))) :=
      congrArg String.mk hdata
    rw [hline,
      hcore '*' hlen halnum (Or.inl rfl) (string_ne_empty_data label hlab_ne)
        hlab_tab hlab_nl hval_nl]
  · have hdata : ("Boot" ++ bootnum ++ " " ++ " " ++ label ++ "\t" ++ value).data
        = 'B' :: 'o' :: 'o' :: 't'
          :: (bootnum.data ++ ' ' :: ' ' :: (label.data ++ '\t' :: value.data)) := by
      simp only [data_append, List.append_assoc]
      rfl
    have hline : ("Boot" ++ bootnum ++ " " ++ " " ++ label ++ "\t" ++ value)
        = String.mk ('B' :: 'o' :: 'o' :: 't'
          :: (bootnum.data ++ ' ' :: ' ' :: (label.data ++ '\t' :: value.data))) :=
      congrArg String.mk hdata
    rw [hline,
      hcore ' ' hlen halnum (Or.inr rfl) (string_ne_empty_data label hlab_ne)
        hlab_tab hlab_nl hval_nl]

/-- Witness for C7 at concrete well-formed fields. -/
theorem roundtrip_wellformed_witness :
    parse_entries ("Boot" ++ "0001" ++ "*" ++ " " ++ "Fedora" ++ "\t" ++ "/vmlinuz")
      = [⟨"0001", "Fedora", "/vmlinuz"⟩] :=
  roundtrip_wellformed "0001" "Fedora" "/vmlinuz" "*" (by decide) (by decide)
    (Or.inl rfl) (by decide) (by decide) (by decide) (by decide)

/-- C10: a listing line whose payload ends immediately after the tab
still matches and yields an entry whose value is the empty string — an
empty value does not cause the line to be skipped. -/
theorem tab_terminal_line_empty_value (bootnum label marker : String)
    (hlen : bootnum.data.length = 4)
    (halnum : ∀ c ∈ bootnum.data, c.isAlphanum = true)
    (hmark : marker = "*" ∨ marker = " ")
    (hlab_ne : label ≠ "") (hlab_tab : '\t' ∉ label.data)
    (hlab_nl : '\n' ∉ label.data) :
    parse_entries ("Boot" ++ bootnum ++ marker ++ " " ++ label ++ "\t")
      = [⟨bootnum, label, ""⟩] := by
  have hcore := parse_entries_line_core bootnum.data label.data []
  rcases hmark with rfl | rfl
  · have hdata : ("Boot" ++ bootnum ++ "*" ++ " " ++ label ++ "\t").data
        = 'B' :: 'o' :: 'o' :: 't'
          :: (bootnum.data ++ '*' :: ' ' :: (label.data ++ '\t' :: [])) := by
      simp only [data_append, List.append_assoc]
      rfl
    have hline : ("Boot" ++ bootnum ++ "*" ++ " " ++ label ++ "\t")
        = String.mk ('B' :: 'o' :: 'o' :: 't'
          :: (bootnum.data ++ '*' :: ' ' :: (label.data ++ '\t' :: []))) :=
      congrArg String.mk hdata
    rw [hline,
      hcore '*' hlen halnum (Or.inl rfl) (string_ne_empty_data label hlab_ne)
        hlab_tab hlab_nl (by simp)]
  · have hdata : ("Boot" ++ bootnum ++ " " ++ " " ++ label ++ "\t").data
        = 'B' :: 'o' :: 'o' :: 't'
          :: (bootnum.data ++ ' ' :: ' ' :: (label.data ++ '\t' :: [])) := by
      simp only [data_append, List.append_assoc]
      rfl
    have hline : ("Boot" ++ bootnum ++ " " ++ " " ++ label ++ "\t")
        = String.mk ('B' :: 'o' :: 'o' :: 't'
          :: (bootnum.data ++ ' ' :: ' ' :: (label.data ++ '\t' :: []))) :=
      congrArg String.mk hdata
    rw [hline,
      hcore ' ' hlen halnum (Or.inr rfl) (string_ne_empty_data label hlab_ne)
        hlab_tab hlab_nl (by simp)]

/-- Witness for C10: the concrete line of the claim. -/
theorem tab_terminal_line_empty_value_witness :
    parse_entries ("Boot" ++ "0001" ++ "*" ++ " " ++ "X" ++ "\t")
      = [⟨"0001", "X", ""⟩] :=
  tab_terminal_line_empty_value "0001" "X" "*" (by decide) (by decide)
    (Or.inl rfl) (by decide) (by decide) (by decide)

/-- C9: every entry produced by a successful `list_entries` satisfies the
invariant: its bootnum is exactly four alphanumeric characters, its label
is non-empty and tab-free, and its value contains no newline. -/
theorem list_entries_entry_invariant (tool : Tool) (entries : List BootEntry)
    (e : BootEntry) (hres : (list_entries tool).2 = Except.ok entries)
    (he : e ∈ entries) :
    e.bootnum.data.length = 4
    ∧ (∀ c ∈ e.bootnum.data, c.isAlphanum = true)
    ∧ e.label ≠ "" ∧ '\t' ∉ e.label.data ∧ '\n' ∉ e.value.data := by
  unfold list_entries at hres
  cases htool : tool list_cmd with
  | error err =>
    rw [htool] at hres
    exact absurd hres (by simp)
  | ok out =>
    rw [htool] at hres
    have hentries : parse_entries out = entries := by
      simpa using hres
    subst hentries
    obtain ⟨cs, hcsmem, hparse⟩ := List.mem_filterMap.mp he
    obtain ⟨c1, c2, c3, c4, m, lab, val, hcs, h1, h2, h3, h4, hm, hlab, htab, rfl⟩ :=
      parseLine_some_elim cs e hparse
    have hnl : '\n' ∉ cs := splitLines_mem_no_newline out.data cs hcsmem
    refine ⟨rfl, ?_, ?_, htab, ?_⟩
    · intro c hc
      simp only [List.mem_cons, List.not_mem_nil, or_false] at hc
      rcases hc with rfl | rfl | rfl | rfl <;> assumption
    · intro hempty
      apply hlab
      have hstr : String.mk lab = "" := hempty
      have hdat : (String.mk lab).data = ("" : String).data := by rw [hstr]
      exact hdat
    · intro hmem
      apply hnl
      rw [hcs]
      simp [hmem]

/-- Witness for C9 at a concrete tool and entry. -/
theorem list_entries_entry_invariant_witness :
    ("0001" : String).data.length = 4
    ∧ (∀ c ∈ ("0001" : String).data, c.isAlphanum = true)
    ∧ ("Fedora" : String) ≠ "" ∧ '\t' ∉ ("Fedora" : String).data
    ∧ '\n' ∉ ("/vmlinuz" : String).data :=
  list_entries_entry_invariant (fun _ => Except.ok "Boot0001* Fedora\t/vmlinuz")
    [⟨"0001", "Fedora", "/vmlinuz"⟩] ⟨"0001", "Fedora", "/vmlinuz"⟩ rfl
    (List.mem_singleton.mpr rfl)

/-- C8: every Invoker failure propagates unchanged as a tool error
carrying the captured error output, with no retry (the trace holds each
command exactly once) and no swallowing; `add_entry` returns success
exactly when the Invoker did not fail, with no verification of the
created entry (the captured output is ignored).  Covers the failure of
`add_entry`, of the listing invocation of both `list_entries` and
`remove_entry`, and of the delete invocation of `remove_entry`. -/
theorem invoker_errors_propagate (tool : Tool)
    (label loader_filename disk : String) (entry : BootEntry) (msg out : String) :
    (tool (add_cmd label loader_filename disk) = Except.error msg →
      add_entry tool label loader_filename disk
        = ([add_cmd label loader_filename disk], Except.error (PyErr.toolError msg)))
    ∧ (tool (add_cmd label loader_filename disk) = Except.ok out →
      add_entry tool label loader_filename disk
        = ([add_cmd label loader_filename disk], Except.ok true))
    ∧ (tool list_cmd = Except.error msg →
      list_entries tool = ([list_cmd], Except.error (PyErr.toolError msg))
      ∧ remove_entry tool entry = ([list_cmd], Except.error (PyErr.toolError msg)))
    ∧ (tool list_cmd = Except.ok out →
      ((parse_entries out).any fun other => BootEntry.pyEq other entry) = true →
      tool (remove_cmd entry) = Except.error msg →
      remove_entry tool entry
        = ([list_cmd, remove_cmd entry], Except.error (PyErr.toolError msg))) := by
  refine ⟨?_, ?_, ?_, ?_⟩
  · intro h
    unfold add_entry
    rw [h]
  · intro h
    unfold add_entry
    rw [h]
  · intro h
    have hl : list_entries tool = ([list_cmd], Except.error (PyErr.toolError msg)) := by
      unfold list_entries
      rw [h]
    refine ⟨hl, ?_⟩
    unfold remove_entry
    rw [hl]
  · intro hok hany hdel
    have hl : list_entries tool = ([list_cmd], Except.ok (parse_entries out)) := by
      unfold list_entries
      rw [hok]
    unfold remove_entry
    rw [hl]
    simp only [hany, if_true]
    rw [hdel]
    rfl

/-- Witness for C8: concrete tools realising each failure and success
case. -/
theorem invoker_errors_propagate_witness :
    add_entry (fun _ => Except.error "boom") "Fedora" "grubx64.efi" "/dev/sda"
      = ([add_cmd "Fedora" "grubx64.efi" "/dev/sda"],
         Except.error (PyErr.toolError "boom"))
    ∧ add_entry (fun _ => Except.ok "") "Fedora" "grubx64.efi" "/dev/sda"
      = ([add_cmd "Fedora" "grubx64.efi" "/dev/sda"], Except.ok true)
    ∧ list_entries (fun _ => Except.error "boom")
      = ([list_cmd], Except.error (PyErr.toolError "boom"))
    ∧ remove_entry (fun _ => Except.error "boom") ⟨"0002", "Windows", "w"⟩
      = ([list_cmd], Except.error (PyErr.toolError "boom"))
    ∧ remove_entry
        (fun cmd => if cmd = ["efibootmgr", "--verbose"]
          then Except.ok "Boot0001* Fedora\t/vmlinuz" else Except.error "boom")
        ⟨"0002", "Windows", "w"⟩
      = ([list_cmd, remove_cmd ⟨"0002", "Windows", "w"⟩],
         Except.error (PyErr.toolError "boom")) :=
  ⟨(invoker_errors_propagate (fun _ => Except.error "boom") "Fedora" "grubx64.efi"
      "/dev/sda" ⟨"0002", "Windows", "w"⟩ "boom" "").1 rfl,
   (invoker_errors_propagate (fun _ => Except.ok "") "Fedora" "grubx64.efi"
      "/dev/sda" ⟨"0002", "Windows", "w"⟩ "" "").2.1 rfl,
   ((invoker_errors_propagate (fun _ => Except.error "boom") "Fedora" "grubx64.efi"
      "/dev/sda" ⟨"0002", "Windows", "w"⟩ "boom" "").2.2.1 rfl).1,
   ((invoker_errors_propagate (fun _ => Except.error "boom") "Fedora" "grubx64.efi"
      "/dev/sda" ⟨"0002", "Windows", "w"⟩ "boom" "").2.2.1 rfl).2,
   (invoker_errors_propagate
      (fun cmd => if cmd = ["efibootmgr", "--verbose"]
        then Except.ok "Boot0001* Fedora\t/vmlinuz" else Except.error "boom")
      "Fedora" "grubx64.efi" "/dev/sda" ⟨"0002", "Windows", "w"⟩ "boom"
      "Boot0001* Fedora\t/vmlinuz").2.2.2 rfl (by decide) rfl⟩

end OvirtEFI
